import Mathlib

/-!
Verification of the trace-extraction core of `violet-s2e-env`.

The development shallowly embeds the two commands
`s2e_env/commands/extract_testcase.py` and `s2e_env/commands/latency_trace.py`
(Python 2): byte sequences become `List Nat` (each element a byte value),
Python strings of bytes become `List Nat` as well, text strings become
`String` or `List Char`, and fallible library calls (`struct.unpack`) become
`Option`-valued functions.  Definitions come first, theorems after.
-/

namespace Violet

/-- Little-endian unsigned value of a byte list:
`leNat [b0, b1, b2] = b0 + 256 * (b1 + 256 * b2)`. -/
def leNat : List Nat → Nat
  | [] => 0
  | b :: rest => b + 256 * leNat rest

/-- Two's-complement reading of an unsigned `w`-bit value `n` as a signed
integer. -/
def toSigned (w : Nat) (n : Nat) : Int :=
  if n < 2 ^ (w - 1) then (n : Int) else (n : Int) - 2 ^ w

/-- Standard size in bytes of a Python `struct` integer format character when
a byte-order prefix such as `'<'` is present.  Per the Python `struct`
documentation, standard sizes apply in that mode: `'i'` is 4 bytes and `'l'`
is also 4 bytes (`'l'` is 8 bytes only in *native* mode on LP64 platforms). -/
def structStdSize (fmt : Char) : Nat :=
  if fmt = 'i' then 4 else if fmt = 'l' then 4 else 0

/-- Model of `struct.unpack('<' + fmt, v)` for a single signed-integer format
character: Python raises `struct.error` (modelled as `none`) unless the
buffer length equals the format's standard size; on success it returns the
signed little-endian interpretation of the buffer. -/
def structUnpackSigned (fmt : Char) (v : List Nat) : Option Int :=
  if v.length = structStdSize fmt then
    some (toSigned (8 * structStdSize fmt) (leNat v))
  else
    none

/-- Embedding of `byte_array_to_int` from `extract_testcase.py`: returns `0`
for inputs longer than 8 bytes; otherwise zero-pads to 4 bytes (length ≤ 4,
format `'i'`) or to 8 bytes (length 5..8, format `'l'`) and calls
`struct.unpack('<' + struct_format, v)`.  The `Option` models the fact that
`struct.unpack` can raise `struct.error`. -/
def byte_array_to_int (value : List Nat) : Option Int :=
  let l := value.length
  if l > 8 then some 0
  else
    let pf := if l ≤ 4 then (4 - l, 'i') else (8 - l, 'l')
    let v := value ++ List.replicate pf.1 0
    structUnpackSigned pf.2 v

/-- Byte values of Python 2 `string.printable`: exactly 32..126 (digits,
letters, punctuation and the space character) together with the whitespace
control characters tab 9, newline 10, carriage return 13, vertical tab 11 and
form feed 12. -/
def string_printable : List Nat :=
  (List.range 95).map (· + 32) ++ [9, 10, 13, 11, 12]

/-- Embedding of
`''.join(c if c in string.printable else '.' for c in value)` from
`TestCaseKeyValue.__init__`; byte value 46 is the dot character. -/
def toPrintable (value : List Nat) : List Nat :=
  value.map (fun c => if c ∈ string_printable then c else 46)

/-- Characters of the base64 alphabet in index order. -/
def b64table : List Char :=
  "ABCDEFGHIJKLMNOPQRSTUVWXYZabcdefghijklmnopqrstuvwxyz0123456789+/".toList

/-- Character of the base64 alphabet at a 6-bit index. -/
def b64char (n : Nat) : Char :=
  b64table.getD n 'A'

/-- Plain (unwrapped) base64 of a byte sequence: each 3-byte group becomes 4
alphabet characters; a trailing 1- or 2-byte group is `'='`-padded.  This is
`binascii.b2a_base64` without its trailing newline. -/
def b64encodePlain : List Nat → List Char
  | [] => []
  | [a] => [b64char (a / 4), b64char (a % 4 * 16), '=', '=']
  | [a, b] => [b64char (a / 4), b64char (a % 4 * 16 + b / 16), b64char (b % 16 * 4), '=']
  | a :: b :: c :: rest =>
      b64char (a / 4) :: b64char (a % 4 * 16 + b / 16) ::
        b64char (b % 16 * 4 + c / 64) :: b64char (c % 64) :: b64encodePlain rest

/-- Whitespace set of Python's `str.strip()`: space, tab, newline, carriage
return, vertical tab, form feed. -/
def isPySpace (ch : Char) : Bool :=
  ch == ' ' || ch == '\t' || ch == '\n' || ch == '\r' ||
    ch == Char.ofNat 11 || ch == Char.ofNat 12

/-- Model of Python `str.strip()`: remove leading and trailing whitespace. -/
def pyStrip (l : List Char) : List Char :=
  ((l.dropWhile isPySpace).reverse.dropWhile isPySpace).reverse

/-- Structural worker for `pyChunks57`: the fuel bounds the recursion depth
and is always sufficient when it starts at the list length, since every step
consumes at least one element. -/
def pyChunks57Aux : Nat → List Nat → List (List Nat)
  | 0, _ => []
  | _, [] => []
  | fuel + 1, a :: rest =>
      ((a :: rest).take 57) :: pyChunks57Aux fuel ((a :: rest).drop 57)

/-- Chunking of the input into the 57-byte pieces used by Python 2's `base64`
codec (`base64.encodestring`, `MAXBINSIZE = 57`); the final chunk may be
short. -/
def pyChunks57 (s : List Nat) : List (List Nat) :=
  pyChunks57Aux s.length s

/-- Model of Python 2 `value.encode('base64')` (the `base64` codec, i.e.
`base64.encodestring`): every 57-byte input chunk becomes one base64 line of
up to 76 characters followed by a newline. -/
def encodeBase64Codec (value : List Nat) : List Char :=
  ((pyChunks57 value).map fun chunk => b64encodePlain chunk ++ ['\n']).flatten

/-- Embedding of `value.encode('base64').strip()` from
`TestCaseKeyValue.__init__`. -/
def toBase64 (value : List Nat) : List Char :=
  pyStrip (encodeBase64Codec value)

/-- Record size `STRUCT_LEN = struct.calcsize('=iQQQdQQd')` from
`latency_trace.py`: under the `'='` prefix standard sizes apply with no
alignment padding, so the record is `i` (4) + `Q Q Q` (8 each) + `d` (8) +
`Q Q` (8 each) + `d` (8) = 60 bytes. -/
def STRUCT_LEN : Nat := 4 + 8 + 8 + 8 + 8 + 8 + 8 + 8

/-- One record of `LatencyTracer.dat`, per `LatencyRecord.__init__`.  The two
`double` fields are kept as their raw 64-bit little-endian bit patterns,
since no claim interprets the floating-point values. -/
structure LatencyRecord where
  state_id : Int
  address : Nat
  ret_address : Nat
  caller_address : Nat
  execution_time : Nat
  activity_id : Nat
  parent_id : Nat
  clock_begin : Nat
  deriving DecidableEq

/-- Unpacking `STRUCT_UNPACK = struct.Struct('=iQQQdQQd').unpack_from` of one
`STRUCT_LEN`-byte chunk, followed by `LatencyRecord(*result)`: `i` is a
signed 32-bit little-endian integer, `Q` an unsigned 64-bit little-endian
integer, `d` a double kept as its raw 64-bit pattern. -/
def STRUCT_UNPACK (chunk : List Nat) : LatencyRecord where
  state_id := toSigned 32 (leNat (chunk.take 4))
  address := leNat ((chunk.drop 4).take 8)
  ret_address := leNat ((chunk.drop 12).take 8)
  caller_address := leNat ((chunk.drop 20).take 8)
  execution_time := leNat ((chunk.drop 28).take 8)
  activity_id := leNat ((chunk.drop 36).take 8)
  parent_id := leNat ((chunk.drop 44).take 8)
  clock_begin := leNat ((chunk.drop 52).take 8)

/-- Structural worker for `parse_latency_trace_file`; the fuel bounds the
number of loop iterations and is always sufficient when it starts at the
stream length. -/
def parseLatencyAux : Nat → List Nat → List LatencyRecord × Bool
  | 0, _ => ([], false)
  | _, [] => ([], false)
  | fuel + 1, a :: rest =>
      if (a :: rest).length < STRUCT_LEN then ([], true)
      else
        let r := parseLatencyAux fuel ((a :: rest).drop STRUCT_LEN)
        (STRUCT_UNPACK ((a :: rest).take STRUCT_LEN) :: r.1, r.2)

/-- Embedding of `Command.parse_latency_trace_file` from `latency_trace.py`,
with the file contents given as a byte list.  The loop reads `STRUCT_LEN`
bytes at a time: an empty read breaks cleanly; a short non-empty read logs a
decode error and breaks (the `Bool` component records whether that error path
was taken); otherwise the chunk is unpacked and appended, and the loop
continues. -/
def parse_latency_trace_file (stream : List Nat) : List LatencyRecord × Bool :=
  parseLatencyAux stream.length stream

/-- Structural worker for `latencyFullChunks`. -/
def fullChunksAux : Nat → List Nat → List (List Nat)
  | 0, _ => []
  | _, [] => []
  | fuel + 1, a :: rest =>
      if (a :: rest).length < STRUCT_LEN then []
      else ((a :: rest).take STRUCT_LEN) :: fullChunksAux fuel ((a :: rest).drop STRUCT_LEN)

/-- Modelled from the spec: the maximal sequence of complete
`STRUCT_LEN`-byte chunks of the stream, in stream order, with any incomplete
trailing chunk discarded. -/
def latencyFullChunks (s : List Nat) : List (List Nat) :=
  fullChunksAux s.length s

/-- Rendering of Python `hex(n)` for a nonnegative integer: `"0x"` followed
by lowercase hexadecimal digits.  (Python 2 appends a letter L to `long`
values; no claim depends on that suffix.) -/
def pyHex (n : Nat) : String :=
  "0x" ++ (Nat.toDigits 16 n).asString

/-- Header row `LatencyRecord.csv_header` from `latency_trace.py`. -/
def csv_header : List String :=
  ["state_id", "address", "return_address", "caller_address",
   "execution_time", "activity_id", "parent_id", "clock_begin"]

/-- Row `LatencyRecord.csv_entry`: addresses rendered through `hex`, the
other fields in their native textual form (the two `double` fields are
rendered from the raw bit pattern we carry; no claim inspects their text). -/
def csv_entry (r : LatencyRecord) : List String :=
  [toString r.state_id, pyHex r.address, pyHex r.ret_address,
   pyHex r.caller_address, toString r.execution_time,
   toString r.activity_id, toString r.parent_id, toString r.clock_begin]

/-- Rows written by the csv loop of `latency_trace.Command.handle`:
`header = None`; for each record, if the header has not been written yet,
write it, then write the record's row. -/
def latencyCsvRows (records : List LatencyRecord) : List (List String) :=
  (records.foldl
    (fun acc r =>
      let acc1 := if acc.2 then acc else (acc.1 ++ [csv_header], true)
      (acc1.1 ++ [csv_entry r], true))
    (([] : List (List String)), false)).1

/-- Two lowercase hexadecimal digits, Python `x.encode('hex')` for one
byte. -/
def hexByte (b : Nat) : String :=
  String.mk [Nat.digitChar (b / 16), Nat.digitChar (b % 16)]

/-- Embedding of `','.join('0x' + x.encode('hex') for x in value)` from
`TestCaseKeyValue.__init__`. -/
def toHex (value : List Nat) : String :=
  String.intercalate "," (value.map fun b => "0x" ++ hexByte b)

/-- Data of `TestCaseKeyValue` from `extract_testcase.py`: an instance
exists only when construction succeeded, so `value_int` is a plain
integer. -/
structure TestCaseKeyValue where
  key : String
  num_bytes : Nat
  value_bytes : List Char
  value_int : Int
  value_hex : String
  value_printable : List Nat
  deriving DecidableEq

/-- Constructor `TestCaseKeyValue.__init__`: the derived fields are pure
functions of the raw value bytes.  The constructor calls
`byte_array_to_int`, which raises `struct.error` on every 5..8-byte value
(see C1); `none` models that raise, which the caller propagates. -/
def mkTestCaseKeyValue (key : String) (value : List Nat) :
    Option TestCaseKeyValue :=
  match byte_array_to_int value with
  | none => none
  | some vi =>
      some { key := key, num_bytes := value.length, value_bytes := toBase64 value,
             value_int := vi, value_hex := toHex value,
             value_printable := toPrintable value }

/-- Modelled from the spec (§4.1): the total `toInt` the spec describes —
`0` beyond 8 bytes, signed 32-bit little-endian up to 4 bytes, signed
64-bit little-endian for 5..8 bytes.  Zero-padding on the high-order side
does not change the little-endian value, so no explicit padding is
needed. -/
def specToInt (value : List Nat) : Int :=
  if value.length > 8 then 0
  else if value.length ≤ 4 then toSigned 32 (leNat value)
  else toSigned 64 (leNat value)

/-- Modelled from the spec (§3 KeyValue): the derived fields as the spec
states them, with `value_int` given by the spec's total `toInt`. -/
def specKeyValue (key : String) (value : List Nat) : TestCaseKeyValue :=
  { key := key, num_bytes := value.length, value_bytes := toBase64 value,
    value_int := specToInt value, value_hex := toHex value,
    value_printable := toPrintable value }

/-- Loop `for p in item.items` of `extract_test_case`: build one
`TestCaseKeyValue` per pair in order; a `struct.error` raised by any
construction aborts the whole loop (no partial result survives the
exception). -/
def buildKeyValues : List (String × List Nat) → Option (List TestCaseKeyValue)
  | [] => some []
  | p :: ps =>
      match mkTestCaseKeyValue p.1 p.2 with
      | none => none
      | some kv =>
          match buildKeyValues ps with
          | none => none
          | some kvs => some (kv :: kvs)

/-- Data of `TestCaseInTrace` from `extract_testcase.py`: one test case
tagged with the state id that produced it. -/
structure TestCaseInTrace where
  state_id : Int
  key_values : List TestCaseKeyValue
  deriving DecidableEq

/-- One `(header, item)` pair of the external execution tree as consumed by
`Command.extract_test_case`: the header's `type` discriminant and the item's
payload are fused into one tagged node.  A `TRACE_TESTCASE` node carries the
ordered `item.items` key/value pairs; a `TRACE_FORK` node carries
`item.children`, a mapping from child state id to a list of child
`(header, item)` pairs, modelled as an association list in the (deterministic
within one run) iteration order of `iteritems`; nodes of any other header
type are ignored by the walker. -/
inductive TraceNode where
  | testcase (items : List (String × List Nat)) : TraceNode
  | fork (children : List (Int × List TraceNode)) : TraceNode
  | other : TraceNode

mutual

/-- Embedding of `Command.extract_test_case` from `extract_testcase.py`: the
accumulator `test_cases` models the mutable `TestCasesInTrace` collection, to
which a TESTCASE node appends one `TestCaseInTrace` tagged with the current
`state_id`, holding one key/value per pair of `item.items` in order; a FORK
node recurses into each child subtree with the child's state id shadowing
(not accumulating with) the current one, exactly as the loop variable
`state_id` shadows the parameter in the source.  The `struct.error` raised
by `TestCaseKeyValue.__init__` on a 5..8-byte value (see C1) propagates and
aborts the whole traversal; `.error ()` models that uncaught exception. -/
def extract_test_case (test_cases : List TestCaseInTrace) (state_id : Int) :
    TraceNode → Except Unit (List TestCaseInTrace)
  | .testcase items =>
      match buildKeyValues items with
      | none => .error ()
      | some kvs => .ok (test_cases ++ [⟨state_id, kvs⟩])
  | .fork children => extractForkChildren test_cases children
  | .other => .ok test_cases

/-- Loop `for state_id, trace in item.children.iteritems()` of
`extract_test_case`; an exception from a child aborts the loop. -/
def extractForkChildren (test_cases : List TestCaseInTrace) :
    List (Int × List TraceNode) → Except Unit (List TestCaseInTrace)
  | [] => .ok test_cases
  | (state_id, trace) :: rest =>
      match extractChildTrace test_cases state_id trace with
      | .error e => .error e
      | .ok acc => extractForkChildren acc rest

/-- Loop `for child_header, child_item in trace` of `extract_test_case`; an
exception from a node aborts the loop. -/
def extractChildTrace (test_cases : List TestCaseInTrace) (state_id : Int) :
    List TraceNode → Except Unit (List TestCaseInTrace)
  | [] => .ok test_cases
  | n :: ns =>
      match extract_test_case test_cases state_id n with
      | .error e => .error e
      | .ok acc => extractChildTrace acc state_id ns

end

mutual

/-- Modelled from the spec's words for comparison with the code
(`§4.2 TraceTreeWalker`): on a TESTCASE node, one `TestCase` tagged with the
current state id with one `KeyValue` per pair in order; on a FORK node, the
concatenation over the children of the walk of each child subtree with the
child's state id replacing the current one; other nodes contribute
nothing. -/
def specWalkNode (state_id : Int) : TraceNode → List TestCaseInTrace
  | .testcase items =>
      [⟨state_id, items.map fun p => specKeyValue p.1 p.2⟩]
  | .fork children => specWalkChildren children
  | .other => []

/-- Spec-side walk of a FORK's children. -/
def specWalkChildren : List (Int × List TraceNode) → List TestCaseInTrace
  | [] => []
  | (state_id, trace) :: rest =>
      specWalkForest state_id trace ++ specWalkChildren rest

/-- Spec-side walk of a list of sibling nodes under one state id. -/
def specWalkForest (state_id : Int) : List TraceNode → List TestCaseInTrace
  | [] => []
  | n :: ns => specWalkNode state_id n ++ specWalkForest state_id ns

end

mutual

/-- Decodability of every TESTCASE value in a node: `byte_array_to_int`
succeeds on each (length ≤ 4 or > 8), so the walk does not hit the C1
`struct.error`. -/
def nodeValuesDecode : TraceNode → Bool
  | .testcase items => items.all fun p => (byte_array_to_int p.2).isSome
  | .fork children => childrenValuesDecode children
  | .other => true

/-- Decodability of every TESTCASE value under a FORK's children. -/
def childrenValuesDecode : List (Int × List TraceNode) → Bool
  | [] => true
  | (_, trace) :: rest => forestValuesDecode trace && childrenValuesDecode rest

/-- Decodability of every TESTCASE value in a list of sibling nodes. -/
def forestValuesDecode : List TraceNode → Bool
  | [] => true
  | n :: ns => nodeValuesDecode n && forestValuesDecode ns

end

/-- Embedding of `LatencyRecords.sort`: Python's `list.sort` on
`LatencyRecord`s is driven by `LatencyRecord.__gt__`, i.e. a stable ascending
sort by `state_id`.  A stable sort by a total preorder is extensionally
unique, so the stable insertion sort by the same key is an exact model of
Timsort here. -/
def latencyRecordsSort (records : List LatencyRecord) : List LatencyRecord :=
  List.insertionSort (fun a b => a.state_id ≤ b.state_id) records

/-- Embedding of `test_case.key_values.sort()`: stable ascending sort by
`key`, driven by `TestCaseKeyValue.__gt__` (lexicographic string
comparison). -/
def keyValuesSort (kvs : List TestCaseKeyValue) : List TestCaseKeyValue :=
  List.insertionSort (fun a b => a.key ≤ b.key) kvs

/-- Body of the `for` loop in `TestCasesInTrace.sort`: sort one test case's
`key_values` in place. -/
def testCaseSortKVs (tc : TestCaseInTrace) : TestCaseInTrace :=
  { tc with key_values := keyValuesSort tc.key_values }

/-- Embedding of `TestCasesInTrace.sort`: first each test case's `key_values`
is sorted by key, then the collection is sorted by `state_id` (via
`TestCaseInTrace.__gt__`); both sorts are stable and ascending. -/
def testCasesSort (tcs : List TestCaseInTrace) : List TestCaseInTrace :=
  List.insertionSort (fun a b => a.state_id ≤ b.state_id)
    (tcs.map testCaseSortKVs)

/-- Decision core of `Command.handle` in `extract_testcase.py` over the
parsed execution tree (directory and output-path checks are external
collaborators): it raises `CommandError('The execution trace is empty')`
(modelled as `.error`) exactly when `not execution_tree` holds, i.e. the tree
has no top-level `(header, item)` pairs; otherwise it runs
`for header, item in execution_tree: extract_test_case(test_cases, 0, ...)`
— the same loop shape as `extractChildTrace` with root state id `0` — then
sorts the collection and succeeds, even when the walk produced zero test
cases.  An uncaught `struct.error` from the walk (see C1) surfaces as its
own distinct error. -/
def extract_handle (execution_tree : List TraceNode) :
    Except String (List TestCaseInTrace) :=
  match execution_tree with
  | [] => .error "The execution trace is empty"
  | _ :: _ =>
      match extractChildTrace [] 0 execution_tree with
      | .error _ => .error "struct.error"
      | .ok test_cases => .ok (testCasesSort test_cases)

/-- Core of the latency command's `handle` after the file checks: parse the
byte stream, sort, and serialize; it has no failure path for zero records.
The result is the rows written to `LatencyTracer.csv` and the truncation
error flag. -/
def latency_handle (stream : List Nat) : List (List String) × Bool :=
  ((latencyCsvRows (latencyRecordsSort (parse_latency_trace_file stream).1)),
    (parse_latency_trace_file stream).2)

/-- Claim C1 (code bug): at the concrete 5-byte input
`[0x01, 0x00, 0x00, 0x00, 0x00]` the code pads the buffer to 8 bytes but
unpacks with format `'<l'`, whose standard size is 4 bytes, so
`struct.unpack` raises `struct.error` (modelled as `none`) instead of
returning the 64-bit signed little-endian value `1` that both the spec and
the code's own comment (`convert to long type`) intend. -/
theorem byte_array_to_int_five_bytes_raises :
    byte_array_to_int [1, 0, 0, 0, 0] = none := by
  decide

/-- Claim C8: for every byte sequence of length at most 4 (including the
empty sequence), `byte_array_to_int` returns the signed little-endian 32-bit
interpretation of the sequence zero-padded on the high-order side up to
4 bytes. -/
theorem byte_array_to_int_le4_signed32 (value : List Nat)
    (h : value.length ≤ 4) :
    byte_array_to_int value =
      some (toSigned 32 (leNat (value ++ List.replicate (4 - value.length) 0))) := by
  have h8 : ¬ value.length > 8 := by omega
  simp only [byte_array_to_int, structUnpackSigned, structStdSize, h8,
    if_false, if_pos h, if_true]
  have hlen : (value ++ List.replicate (4 - value.length) 0).length = 4 := by
    simp only [List.length_append, List.length_replicate]
    omega
  simp [hlen]

/-- Witness for C8 at the concrete input `[0x2a]`. -/
theorem byte_array_to_int_le4_signed32_witness :
    byte_array_to_int [42] =
      some (toSigned 32 (leNat ([42] ++ List.replicate (4 - [42].length) 0))) :=
  byte_array_to_int_le4_signed32 [42] (by decide)

/-- Claim C9: for every byte sequence of length strictly greater than 8,
`byte_array_to_int` returns `0` regardless of content, and succeeds (no
error). -/
theorem byte_array_to_int_gt8_zero (value : List Nat)
    (h : value.length > 8) :
    byte_array_to_int value = some 0 := by
  simp [byte_array_to_int, h]

/-- Witness for C9 at a concrete 9-byte input. -/
theorem byte_array_to_int_gt8_zero_witness :
    byte_array_to_int [255, 254, 253, 252, 251, 250, 249, 248, 247] = some 0 :=
  byte_array_to_int_gt8_zero [255, 254, 253, 252, 251, 250, 249, 248, 247]
    (by decide)

/-- Claim C10: the whitespace control bytes tab 9, newline 10, carriage
return 13, vertical tab 11 and form feed 12 are members of Python's
`string.printable`, and `toPrintable` maps every value whose bytes all lie in
`string.printable` to itself unchanged (no replacement by the dot), so
`value_printable` can contain control characters and is not restricted to
visible ASCII. -/
theorem toPrintable_keeps_printable :
    (∀ b ∈ [9, 10, 13, 11, 12], b ∈ string_printable) ∧
      ∀ value : List Nat, (∀ b ∈ value, b ∈ string_printable) →
        toPrintable value = value := by
  refine ⟨by decide, ?_⟩
  intro value h
  induction value with
  | nil => rfl
  | cons a t ih =>
      have ha : a ∈ string_printable := h a (List.mem_cons_self a t)
      have ht : toPrintable t = t := ih fun b hb => h b (List.mem_cons_of_mem a hb)
      simp only [toPrintable, List.map_cons, if_pos ha] at *
      rw [ht]

/-- Witness for C10 at the concrete input `[9, 65, 10]` (tab, letter A,
newline): all three bytes survive unchanged. -/
theorem toPrintable_keeps_printable_witness :
    toPrintable [9, 65, 10] = [9, 65, 10] :=
  toPrintable_keeps_printable.2 [9, 65, 10] (by decide)

theorem pyChunks57Aux_nil (fuel : Nat) : pyChunks57Aux fuel [] = [] := by
  cases fuel <;> rfl

theorem isPySpace_b64char (n : Nat) : isPySpace (b64char n) = false := by
  by_cases h : n < b64table.length
  · have hall : ∀ c ∈ b64table, isPySpace c = false := by decide
    have hmem : b64table[n] ∈ b64table := List.getElem_mem h
    rw [b64char, List.getD_eq_getElem?_getD, List.getElem?_eq_getElem h]
    exact hall _ hmem
  · rw [b64char, List.getD_eq_getElem?_getD, List.getElem?_eq_none (by omega)]
    decide

theorem b64encodePlain_no_space (v : List Nat) :
    ∀ c ∈ b64encodePlain v, isPySpace c = false := by
  induction v using b64encodePlain.induct with
  | case1 => intro c hc; simp [b64encodePlain] at hc
  | case2 a =>
      intro c hc
      simp only [b64encodePlain, List.mem_cons, List.not_mem_nil, or_false] at hc
      rcases hc with h | h | h | h <;> subst h <;>
        first | apply isPySpace_b64char | decide
  | case3 a b =>
      intro c hc
      simp only [b64encodePlain, List.mem_cons, List.not_mem_nil, or_false] at hc
      rcases hc with h | h | h | h <;> subst h <;>
        first | apply isPySpace_b64char | decide
  | case4 a b c rest ih =>
      intro x hx
      simp only [b64encodePlain, List.mem_cons] at hx
      rcases hx with h | h | h | h | h
      · subst h; apply isPySpace_b64char
      · subst h; apply isPySpace_b64char
      · subst h; apply isPySpace_b64char
      · subst h; apply isPySpace_b64char
      · exact ih x h

theorem dropWhile_eq_self_of_no_space {l : List Char}
    (h : ∀ c ∈ l, isPySpace c = false) : l.dropWhile isPySpace = l := by
  cases l with
  | nil => rfl
  | cons a t =>
      rw [List.dropWhile_cons]
      simp [h a (List.mem_cons_self a t)]

theorem pyStrip_append_newline {l : List Char}
    (h : ∀ c ∈ l, isPySpace c = false) : pyStrip (l ++ ['\n']) = l := by
  cases l with
  | nil => rfl
  | cons a t =>
      have ha : isPySpace a = false := h a (List.mem_cons_self a t)
      have hfront :
          List.dropWhile isPySpace ((a :: t) ++ ['\n']) = (a :: t) ++ ['\n'] := by
        rw [List.cons_append, List.dropWhile_cons]
        simp [ha]
      rw [pyStrip, hfront]
      have hrev : ((a :: t) ++ ['\n']).reverse = '\n' :: (a :: t).reverse := by
        simp
      rw [hrev, List.dropWhile_cons]
      have hnl : isPySpace '\n' = true := by decide
      simp only [hnl, if_true]
      have hrevmem : ∀ c ∈ (a :: t).reverse, isPySpace c = false := by
        intro c hc
        exact h c (List.mem_reverse.mp hc)
      rw [dropWhile_eq_self_of_no_space hrevmem, List.reverse_reverse]

/-- Claim C5 (amended): for every byte sequence of at most 57 bytes,
`toBase64` equals the plain (single-line) standard base64 encoding, and the
result contains no whitespace character.  (For longer inputs the Python 2
`base64` codec inserts a newline after every 76 output characters, and
`strip()` removes only the trailing one — see the counterexample.) -/
theorem toBase64_short_eq_plain (value : List Nat) (h : value.length ≤ 57) :
    toBase64 value = b64encodePlain value ∧
      (toBase64 value).all (fun c => !isPySpace c) = true := by
  have hmain : toBase64 value = b64encodePlain value := by
    cases value with
    | nil => rfl
    | cons a t =>
        have htake : (a :: t).take 57 = a :: t := List.take_of_length_le h
        have hdrop : (a :: t).drop 57 = [] := List.drop_eq_nil_of_le h
        have hchunks : pyChunks57 (a :: t) = [a :: t] := by
          rw [pyChunks57]
          simp only [List.length_cons, pyChunks57Aux, htake, hdrop,
            pyChunks57Aux_nil]
        rw [toBase64, encodeBase64Codec, hchunks]
        simp only [List.map_cons, List.map_nil, List.flatten_cons,
          List.flatten_nil, List.append_nil]
        exact pyStrip_append_newline (b64encodePlain_no_space (a :: t))
  refine ⟨hmain, ?_⟩
  rw [hmain, List.all_eq_true]
  intro c hc
  simp [b64encodePlain_no_space value c hc]

/-- Witness for the amended C5 at the concrete two-byte input
`[104, 105]`. -/
theorem toBase64_short_eq_plain_witness :
    toBase64 [104, 105] = b64encodePlain [104, 105] ∧
      (toBase64 [104, 105]).all (fun c => !isPySpace c) = true :=
  toBase64_short_eq_plain [104, 105] (by decide)

/-- Counterexample to C5 as stated: at the 58-byte input of zero bytes the
encoded string retains an interior newline after `strip()`, so the result is
not whitespace-free standard base64. -/
theorem toBase64_58_bytes_contains_newline :
    '\n' ∈ toBase64 (List.replicate 58 0) := by
  decide

theorem parseLatencyAux_spec (fuel : Nat) :
    ∀ s : List Nat, s.length ≤ fuel →
      (parseLatencyAux fuel s).1 = (fullChunksAux fuel s).map STRUCT_UNPACK ∧
        (parseLatencyAux fuel s).1.length = s.length / STRUCT_LEN ∧
        ((parseLatencyAux fuel s).2 = true ↔ ¬ STRUCT_LEN ∣ s.length) := by
  induction fuel with
  | zero =>
      intro s hs
      have hnil : s = [] := List.eq_nil_of_length_eq_zero (by omega)
      subst hnil
      refine ⟨rfl, by simp [parseLatencyAux, STRUCT_LEN], ?_⟩
      simp [parseLatencyAux, STRUCT_LEN]
  | succ fuel ih =>
      intro s hs
      cases s with
      | nil =>
          refine ⟨rfl, by simp [parseLatencyAux, fullChunksAux, STRUCT_LEN], ?_⟩
          simp [parseLatencyAux, STRUCT_LEN]
      | cons a rest =>
          by_cases hlt : rest.length + 1 < STRUCT_LEN
          · have hparse : parseLatencyAux (fuel + 1) (a :: rest) = ([], true) := by
              simp [parseLatencyAux, hlt]
            have hchunks : fullChunksAux (fuel + 1) (a :: rest) = [] := by
              simp [fullChunksAux, hlt]
            refine ⟨by rw [hparse, hchunks]; rfl, ?_, ?_⟩
            · rw [hparse]
              simp only [List.length_nil, List.length_cons]
              simp only [STRUCT_LEN] at hlt ⊢
              omega
            · rw [hparse]
              simp only [List.length_cons]
              simp only [STRUCT_LEN] at hlt ⊢
              constructor
              · intro _; omega
              · intro _; trivial
          · have hlen : ((a :: rest).drop STRUCT_LEN).length ≤ fuel := by
              simp only [List.length_drop, List.length_cons]
              simp only [List.length_cons] at hs
              simp only [STRUCT_LEN] at hlt ⊢
              omega
            obtain ⟨ih1, ih2, ih3⟩ := ih ((a :: rest).drop STRUCT_LEN) hlen
            have hparse :
                parseLatencyAux (fuel + 1) (a :: rest) =
                  (STRUCT_UNPACK ((a :: rest).take STRUCT_LEN) ::
                      (parseLatencyAux fuel ((a :: rest).drop STRUCT_LEN)).1,
                    (parseLatencyAux fuel ((a :: rest).drop STRUCT_LEN)).2) := by
              simp [parseLatencyAux, hlt]
            have hchunks :
                fullChunksAux (fuel + 1) (a :: rest) =
                  ((a :: rest).take STRUCT_LEN) ::
                    fullChunksAux fuel ((a :: rest).drop STRUCT_LEN) := by
              simp [fullChunksAux, hlt]
            refine ⟨?_, ?_, ?_⟩
            · rw [hparse, hchunks, List.map_cons, ← ih1]
            · rw [hparse]
              simp only [List.length_cons, ih2, List.length_drop]
              simp only [STRUCT_LEN] at hlt ⊢
              omega
            · rw [hparse]
              simp only [ih3, List.length_drop, List.length_cons]
              simp only [STRUCT_LEN] at hlt ⊢
              omega

/-- Claim C2: for every input byte stream, `parse_latency_trace_file` decodes
exactly the stream's complete 60-byte chunks, in stream order — hence
floor(len/60) records — and its error flag is set exactly when the stream
length is not a multiple of the record size (a nonzero but incomplete
trailing read), in which case the records decoded before that point are still
returned; a zero-byte final read (length a multiple of 60, including 0) stops
cleanly with no error, and no incomplete record is ever added. -/
theorem parse_latency_trace_file_spec (stream : List Nat) :
    (parse_latency_trace_file stream).1 =
        (latencyFullChunks stream).map STRUCT_UNPACK ∧
      (parse_latency_trace_file stream).1.length = stream.length / STRUCT_LEN ∧
      ((parse_latency_trace_file stream).2 = true ↔
        ¬ STRUCT_LEN ∣ stream.length) :=
  parseLatencyAux_spec stream.length stream (Nat.le_refl _)

theorem latencyCsvRows_foldl_true (rs : List LatencyRecord)
    (acc : List (List String)) :
    rs.foldl
        (fun acc r =>
          let acc1 := if acc.2 then acc else (acc.1 ++ [csv_header], true)
          (acc1.1 ++ [csv_entry r], true))
        (acc, true) =
      (acc ++ rs.map csv_entry, true) := by
  induction rs generalizing acc with
  | nil => simp
  | cons r rs ih =>
      simp only [List.foldl_cons, if_pos, List.map_cons]
      rw [ih]
      simp

/-- Claim C6: the latency serializer writes the fixed header row exactly when
at least one record exists, exactly once, before the first data row; for an
empty record collection the output is empty. -/
theorem latencyCsvRows_header (records : List LatencyRecord) :
    latencyCsvRows records =
      if records = [] then [] else csv_header :: records.map csv_entry := by
  cases records with
  | nil => rfl
  | cons r rs =>
      rw [latencyCsvRows, List.foldl_cons]
      simp only [if_neg (Bool.false_ne_true), List.nil_append]
      rw [latencyCsvRows_foldl_true]
      simp

theorem leNat_replicate_zero : ∀ m : Nat, leNat (List.replicate m 0) = 0
  | 0 => rfl
  | m + 1 => by simp [List.replicate, leNat, leNat_replicate_zero m]

theorem leNat_append_zeros :
    ∀ (v : List Nat) (m : Nat), leNat (v ++ List.replicate m 0) = leNat v
  | [], m => by simp [leNat_replicate_zero m, leNat]
  | b :: rest, m => by simp [leNat, leNat_append_zeros rest m]

theorem byte_array_to_int_le4_eq (value : List Nat) (h : value.length ≤ 4) :
    byte_array_to_int value = some (toSigned 32 (leNat value)) := by
  have h8 : ¬ value.length > 8 := by omega
  have hlen : (value ++ List.replicate (4 - value.length) 0).length = 4 := by
    simp only [List.length_append, List.length_replicate]
    omega
  simp only [byte_array_to_int, structUnpackSigned, structStdSize, h8,
    if_false, if_pos h, if_true]
  simp [hlen, leNat_append_zeros]

theorem byte_array_to_int_mid_none (value : List Nat)
    (h4 : ¬ value.length ≤ 4) (h8 : ¬ value.length > 8) :
    byte_array_to_int value = none := by
  have hlen : (value ++ List.replicate (8 - value.length) 0).length = 8 := by
    simp only [List.length_append, List.length_replicate]
    omega
  simp [byte_array_to_int, structUnpackSigned, structStdSize, h8, h4, hlen]

theorem byte_array_to_int_eq_specToInt (value : List Nat)
    (h : (byte_array_to_int value).isSome = true) :
    byte_array_to_int value = some (specToInt value) := by
  by_cases h8 : value.length > 8
  · simp [byte_array_to_int, specToInt, h8]
  · by_cases h4 : value.length ≤ 4
    · rw [byte_array_to_int_le4_eq value h4]
      simp [specToInt, h8, h4]
    · rw [byte_array_to_int_mid_none value h4 h8] at h
      simp at h

theorem mkTestCaseKeyValue_eq_spec (key : String) (value : List Nat)
    (h : (byte_array_to_int value).isSome = true) :
    mkTestCaseKeyValue key value = some (specKeyValue key value) := by
  simp only [mkTestCaseKeyValue, byte_array_to_int_eq_specToInt value h]
  rfl

theorem buildKeyValues_eq_spec :
    ∀ items : List (String × List Nat),
      items.all (fun p => (byte_array_to_int p.2).isSome) = true →
      buildKeyValues items = some (items.map fun p => specKeyValue p.1 p.2)
  | [], _ => rfl
  | p :: ps, h => by
      simp only [List.all_cons, Bool.and_eq_true] at h
      simp only [buildKeyValues, mkTestCaseKeyValue_eq_spec p.1 p.2 h.1,
        buildKeyValues_eq_spec ps h.2, List.map_cons]

mutual

theorem extract_test_case_ok :
    ∀ (n : TraceNode) (acc : List TestCaseInTrace) (sid : Int),
      nodeValuesDecode n = true →
      extract_test_case acc sid n = Except.ok (acc ++ specWalkNode sid n)
  | .testcase items, acc, sid, h => by
      have hall : items.all (fun p => (byte_array_to_int p.2).isSome) = true := by
        simpa [nodeValuesDecode] using h
      simp only [extract_test_case, buildKeyValues_eq_spec items hall,
        specWalkNode]
  | .fork children, acc, sid, h => by
      have hc : childrenValuesDecode children = true := by
        simpa [nodeValuesDecode] using h
      rw [show extract_test_case acc sid (.fork children) =
            extractForkChildren acc children by simp [extract_test_case]]
      rw [show specWalkNode sid (.fork children) = specWalkChildren children by
            simp [specWalkNode]]
      exact extractForkChildren_ok children acc hc
  | .other, acc, sid, _ => by
      simp [extract_test_case, specWalkNode]

theorem extractForkChildren_ok :
    ∀ (cs : List (Int × List TraceNode)) (acc : List TestCaseInTrace),
      childrenValuesDecode cs = true →
      extractForkChildren acc cs = Except.ok (acc ++ specWalkChildren cs)
  | [], acc, _ => by
      simp [extractForkChildren, specWalkChildren]
  | (sid, trace) :: rest, acc, h => by
      have h2 : forestValuesDecode trace = true ∧
          childrenValuesDecode rest = true := by
        simpa [childrenValuesDecode, Bool.and_eq_true] using h
      simp only [extractForkChildren, extractChildTrace_ok trace acc sid h2.1,
        extractForkChildren_ok rest (acc ++ specWalkForest sid trace) h2.2,
        specWalkChildren]
      simp [List.append_assoc]

theorem extractChildTrace_ok :
    ∀ (ns : List TraceNode) (acc : List TestCaseInTrace) (sid : Int),
      forestValuesDecode ns = true →
      extractChildTrace acc sid ns = Except.ok (acc ++ specWalkForest sid ns)
  | [], acc, sid, _ => by
      simp [extractChildTrace, specWalkForest]
  | n :: ns, acc, sid, h => by
      have h2 : nodeValuesDecode n = true ∧ forestValuesDecode ns = true := by
        simpa [forestValuesDecode, Bool.and_eq_true] using h
      simp only [extractChildTrace, extract_test_case_ok n acc sid h2.1,
        extractChildTrace_ok ns (acc ++ specWalkNode sid n) sid h2.2,
        specWalkForest]
      simp [List.append_assoc]

end

/-- Counterexample to C3 as stated: on a tree consisting of one TESTCASE
leaf whose value has 5 bytes, the walker does not emit a TestCase — the
`struct.error` raised inside `TestCaseKeyValue.__init__` (see C1) aborts
the walk. -/
theorem extract_test_case_wide_value_aborts :
    extract_test_case [] 0 (TraceNode.testcase [("x", [1, 0, 0, 0, 0])]) =
      Except.error () := by
  have h5 : byte_array_to_int [1, 0, 0, 0, 0] = none := by decide
  simp [extract_test_case, buildKeyValues, mkTestCaseKeyValue, h5]

/-- Claim C3 (amended): for every trace tree all of whose TESTCASE values
decode (length ≤ 4 or > 8, so the walk does not hit the C1 `struct.error`),
the walker succeeds and computes exactly the spec's recursive attribution:
starting from any accumulator contents and current state id, it appends, for
each TESTCASE node, one `TestCaseInTrace` tagged with the current state id
(the id inherited from the nearest enclosing FORK child containing it, `0`
at the root via `handle`) holding one `TestCaseKeyValue` per key/value pair
in the node's given order, and for each FORK node the walk of every child
subtree with that child's state id replacing, not accumulating with, the
current one.  On a tree containing a 5..8-byte value the key/value
construction raises and the whole walk aborts — see the counterexample. -/
theorem extract_test_case_spec (test_cases : List TestCaseInTrace)
    (state_id : Int) (n : TraceNode) (h : nodeValuesDecode n = true) :
    extract_test_case test_cases state_id n =
      Except.ok (test_cases ++ specWalkNode state_id n) :=
  extract_test_case_ok n test_cases state_id h

/-- Witness for the amended C3 at the concrete tree of Scenario B: a FORK
with children `5` and `2`, each holding one decodable TESTCASE leaf. -/
theorem extract_test_case_spec_witness :
    extract_test_case [] 0
        (TraceNode.fork [(5, [TraceNode.testcase [("x", [1, 0, 0, 0])]]),
          (2, [TraceNode.testcase [("y", [2])]])]) =
      Except.ok ([] ++ specWalkNode 0
        (TraceNode.fork [(5, [TraceNode.testcase [("x", [1, 0, 0, 0])]]),
          (2, [TraceNode.testcase [("y", [2])]])])) :=
  extract_test_case_spec [] 0
    (TraceNode.fork [(5, [TraceNode.testcase [("x", [1, 0, 0, 0])]]),
      (2, [TraceNode.testcase [("y", [2])]])])
    (by simp [nodeValuesDecode, childrenValuesDecode, forestValuesDecode,
      byte_array_to_int, structUnpackSigned, structStdSize])

theorem filter_orderedInsert_key {α κ : Type} [LinearOrder κ] [DecidableEq κ]
    (key : α → κ) (x : α) (l : List α) (k : κ) :
    (List.orderedInsert (fun a b => key a ≤ key b) x l).filter
        (fun y => decide (key y = k)) =
      if key x = k then
        x :: l.filter (fun y => decide (key y = k))
      else l.filter (fun y => decide (key y = k)) := by
  induction l with
  | nil =>
      by_cases hx : key x = k <;> simp [hx]
  | cons h t ih =>
      by_cases hle : key x ≤ key h
      · simp only [List.orderedInsert, if_pos hle]
        by_cases hx : key x = k <;> simp [hx]
      · have hh : key h < key x := not_le.mp hle
        simp only [List.orderedInsert, if_neg hle]
        by_cases hx : key x = k
        · have hhk : ¬ key h = k := by
            intro e
            rw [hx] at hh
            rw [e] at hh
            exact lt_irrefl k hh
          simp [List.filter_cons, hhk, hx, ih]
        · simp [List.filter_cons, ih, hx]

theorem filter_insertionSort_key {α κ : Type} [LinearOrder κ] [DecidableEq κ]
    (key : α → κ) (l : List α) (k : κ) :
    (List.insertionSort (fun a b => key a ≤ key b) l).filter
        (fun y => decide (key y = k)) =
      l.filter (fun y => decide (key y = k)) := by
  induction l with
  | nil => rfl
  | cons h t ih =>
      simp only [List.insertionSort]
      rw [filter_orderedInsert_key]
      by_cases hk : key h = k <;> simp [List.filter_cons, hk, ih]

theorem insertionSort_key_idem {α κ : Type} [LinearOrder κ] (key : α → κ)
    (l : List α) :
    List.insertionSort (fun a b => key a ≤ key b)
        (List.insertionSort (fun a b => key a ≤ key b) l) =
      List.insertionSort (fun a b => key a ≤ key b) l := by
  haveI : IsTotal α (fun a b => key a ≤ key b) :=
    ⟨fun a b => le_total (key a) (key b)⟩
  haveI : IsTrans α (fun a b => key a ≤ key b) :=
    ⟨fun a b c h1 h2 => le_trans h1 h2⟩
  exact (List.sorted_insertionSort _ l).insertionSort_eq

theorem map_eq_self_of_mem {α : Type} {f : α → α} :
    ∀ {l : List α}, (∀ x ∈ l, f x = x) → l.map f = l
  | [], _ => rfl
  | a :: t, h => by
      rw [List.map_cons, h a (List.mem_cons_self a t),
        map_eq_self_of_mem fun x hx => h x (List.mem_cons_of_mem a hx)]

/-- Claim C7: both `sort()` operations are stable sorts by their key —
filtering the output at any fixed sort key yields exactly the input's entries
with that key in their original relative order — and consequently idempotent:
sorting an already-sorted collection produces an identical sequence.  The
conjuncts cover latency records by `state_id`, key/value entries by `key`,
and the test-case collection by `state_id` (whose inner key-value lists are
sorted by the same pass). -/
theorem sorts_stable_and_idempotent :
    (∀ (l : List LatencyRecord) (k : Int),
        (latencyRecordsSort l).filter (fun r => decide (r.state_id = k)) =
          l.filter (fun r => decide (r.state_id = k))) ∧
      (∀ l : List LatencyRecord,
        latencyRecordsSort (latencyRecordsSort l) = latencyRecordsSort l) ∧
      (∀ (kvs : List TestCaseKeyValue) (k : String),
        (keyValuesSort kvs).filter (fun kv => decide (kv.key = k)) =
          kvs.filter (fun kv => decide (kv.key = k))) ∧
      (∀ (tcs : List TestCaseInTrace) (k : Int),
        (testCasesSort tcs).filter (fun t => decide (t.state_id = k)) =
          (tcs.filter (fun t => decide (t.state_id = k))).map testCaseSortKVs) ∧
      ∀ tcs : List TestCaseInTrace,
        testCasesSort (testCasesSort tcs) = testCasesSort tcs := by
  refine ⟨?_, ?_, ?_, ?_, ?_⟩
  · intro l k
    exact filter_insertionSort_key (fun r : LatencyRecord => r.state_id) l k
  · intro l
    exact insertionSort_key_idem (fun r : LatencyRecord => r.state_id) l
  · intro kvs k
    exact filter_insertionSort_key (fun kv : TestCaseKeyValue => kv.key) kvs k
  · intro tcs k
    rw [testCasesSort,
      filter_insertionSort_key (fun t : TestCaseInTrace => t.state_id)
        (tcs.map testCaseSortKVs) k,
      List.filter_map]
    rfl
  · intro tcs
    rw [testCasesSort, testCasesSort]
    have hkv : ∀ l, keyValuesSort (keyValuesSort l) = keyValuesSort l :=
      fun l => insertionSort_key_idem (fun kv : TestCaseKeyValue => kv.key) l
    have hinner :
        ∀ x ∈ List.insertionSort
            (fun a b : TestCaseInTrace => a.state_id ≤ b.state_id)
            (tcs.map testCaseSortKVs),
          testCaseSortKVs x = x := by
      intro x hx
      rw [List.mem_insertionSort] at hx
      obtain ⟨y, _, rfl⟩ := List.mem_map.mp hx
      simp [testCaseSortKVs, hkv]
    rw [map_eq_self_of_mem hinner]
    exact insertionSort_key_idem (fun t : TestCaseInTrace => t.state_id) _

/-- Counterexample to C4 as stated: the execution tree `[FORK with no
children]` is non-empty but yields zero test cases, and the test-case command
succeeds with an empty collection instead of failing fatally. -/
theorem extract_handle_fork_only_ok :
    extract_handle [TraceNode.fork []] = Except.ok [] := by
  simp [extract_handle, extractChildTrace, extract_test_case,
    extractForkChildren, testCasesSort]

/-- Claim C4 (amended): the test-case command raises its fatal error exactly
when the parsed execution tree itself is empty — a non-empty tree yielding
zero test cases is not an error — while the latency command has no failure
path and serializes zero decoded records as empty output. -/
theorem handle_empty_policies :
    (∀ tree : List TraceNode,
        extract_handle tree = Except.error "The execution trace is empty" ↔
          tree = []) ∧
      ∀ stream : List Nat, (parse_latency_trace_file stream).1 = [] →
        (latency_handle stream).1 = [] := by
  constructor
  · intro tree
    cases tree with
    | nil => simp [extract_handle]
    | cons a t =>
        simp only [extract_handle]
        cases hw : extractChildTrace [] 0 (a :: t) with
        | error e => simp [hw]
        | ok tcs => simp [hw]
  · intro stream h
    simp [latency_handle, h, latencyRecordsSort, latencyCsvRows]

/-- Witness for the amended C4 at the empty stream: zero records serialize to
empty output. -/
theorem handle_empty_policies_witness : (latency_handle []).1 = [] :=
  handle_empty_policies.2 [] rfl

end Violet
